import Mathlib

/-!
Verification development for the openapi-mcp repository.

The repository exposes query tools over a cached OpenAPI document.  The core
logic embedded here:

* `RefResolver` (src/utils/RefResolver.ts): JSON-pointer resolution
  (`resolveRef`) and recursive deep resolution with cycle detection and a
  depth limit (`resolveAllRefs`).
* `OpenAPIManager` (src/utils/OpenAPIManager.ts): cache refresh step,
  endpoint/schema index builders, the search and detail operations.
* The tool layer (`SearchEndpointsTool`, `SearchSchemasTool`, ...): argument
  defaulting and the pagination envelope.

Modelling conventions:

* Parsed documents are modelled by the inductive `Value` (null, booleans,
  numbers as integers, strings, arrays, ordered key-value objects).  Object
  field order models JavaScript enumeration order; keys are assumed unique
  (as produced by JSON/YAML parsing).  Prototype-chain properties of
  JavaScript objects are not modelled: property lookup sees only own keys of
  objects and canonical numeric indices of arrays.
* JavaScript exceptions are modelled with `Except JsError`; `URIError` from
  `decodeURIComponent` gets its own constructor, `new Error(msg)` carries its
  message.
* JavaScript regular-expression matching (an external engine) is an abstract
  boolean test function parameter `rtest` of the search operations.
* Asynchrony is collapsed: `getSpec` is modelled as a sequential step
  function taking the fetch outcome as an injectable argument; the
  single-flight promise coalescing is outside this embedding.
-/

namespace OpenapiMcp

/-- A parsed JSON/YAML document value.  Numbers are modelled as integers;
objects are ordered association lists mirroring JavaScript key enumeration
order. -/
inductive Value where
  | vNull : Value
  | vBool (b : Bool) : Value
  | vNum (n : Int) : Value
  | vStr (s : String) : Value
  | vArr (items : List Value) : Value
  | vObj (fields : List (String × Value)) : Value
deriving Repr

/-- JavaScript exceptions thrown by the modelled code: `URIError` from
`decodeURIComponent`, and `new Error(msg)`. -/
inductive JsError where
  | uriMalformed : JsError
  | err (msg : String) : JsError
deriving Repr, DecidableEq

/-- JavaScript truthiness of a `Value` (`null`, `false`, `0` and the empty
string are falsy; arrays and objects are always truthy). -/
def truthy : Value → Bool
  | .vNull => false
  | .vBool b => b
  | .vNum n => n != 0
  | .vStr s => !s.data.isEmpty
  | .vArr _ => true
  | .vObj _ => true

/-- First-match lookup in an object field list (JavaScript property access on
own keys). -/
def lookupField : List (String × Value) → String → Option Value
  | [], _ => none
  | (k, v) :: rest, key => if k = key then some v else lookupField rest key

/-- Parse a canonical decimal numeral (no leading zeros except "0" itself),
the form a JavaScript array index key takes. -/
def parseIndex? (cs : List Char) : Option Nat :=
  match cs with
  | [] => none
  | ['0'] => some 0
  | c :: rest =>
    if '1' ≤ c ∧ c ≤ '9' then
      go (c.toNat - 48) rest
    else none
where
  go (acc : Nat) : List Char → Option Nat
    | [] => some acc
    | d :: rest =>
      if '0' ≤ d ∧ d ≤ '9' then go (acc * 10 + (d.toNat - 48)) rest
      else none

/-- Models `current && typeof current === 'object' && key in current`
followed by `current[key]`: own-key access on objects, canonical numeric
index access on arrays, nothing on scalars or null. -/
def jsGet : Value → String → Option Value
  | .vObj fields, key => lookupField fields key
  | .vArr items, key =>
    match parseIndex? key.data with
    | some i => items.get? i
    | none => none
  | _, _ => none

/-! ### Percent-decoding (`decodeURIComponent`) -/

/-- Value of a hexadecimal digit character, if it is one. -/
def hexDigit? (c : Char) : Option Nat :=
  if '0' ≤ c ∧ c ≤ '9' then some (c.toNat - 48)
  else if 'A' ≤ c ∧ c ≤ 'F' then some (c.toNat - 55)
  else if 'a' ≤ c ∧ c ≤ 'f' then some (c.toNat - 87)
  else none

/-- Combine two hex digit characters into a byte value. -/
def hexByte? (h1 h2 : Char) : Option Nat :=
  match hexDigit? h1, hexDigit? h2 with
  | some a, some b => some (16 * a + b)
  | _, _ => none

/-- A percent escape encoding a UTF-8 continuation byte: value of its low six
bits, or `none` if the byte is not in `0x80..0xBF`. -/
def contByte? (h1 h2 : Char) : Option Nat :=
  match hexByte? h1 h2 with
  | some b => if 0x80 ≤ b ∧ b < 0xC0 then some (b % 0x40) else none
  | none => none

/-- Core of `decodeURIComponent`: percent escapes are decoded as UTF-8 byte
sequences (all continuation bytes must also be percent escapes), other
characters pass through; any malformed escape or invalid UTF-8 sequence is a
`URIError`, modelled as `none`. -/
def decodeChars : List Char → Option (List Char)
  | [] => some []
  | '%' :: h1 :: h2 :: rest =>
    match hexByte? h1 h2 with
    | none => none
    | some b =>
      if b < 0x80 then
        (decodeChars rest).map (fun l => Char.ofNat b :: l)
      else if b < 0xC0 then none
      else if b < 0xE0 then
        match rest with
        | '%' :: h3 :: h4 :: rest2 =>
          match contByte? h3 h4 with
          | some c1 =>
            let cp := (b % 0x20) * 0x40 + c1
            if 0x80 ≤ cp then (decodeChars rest2).map (fun l => Char.ofNat cp :: l)
            else none
          | none => none
        | _ => none
      else if b < 0xF0 then
        match rest with
        | '%' :: h3 :: h4 :: '%' :: h5 :: h6 :: rest2 =>
          match contByte? h3 h4, contByte? h5 h6 with
          | some c1, some c2 =>
            let cp := (b % 0x10) * 0x1000 + c1 * 0x40 + c2
            if 0x800 ≤ cp ∧ ¬ (0xD800 ≤ cp ∧ cp < 0xE000) then
              (decodeChars rest2).map (fun l => Char.ofNat cp :: l)
            else none
          | _, _ => none
        | _ => none
      else if b < 0xF8 then
        match rest with
        | '%' :: h3 :: h4 :: '%' :: h5 :: h6 :: '%' :: h7 :: h8 :: rest2 =>
          match contByte? h3 h4, contByte? h5 h6, contByte? h7 h8 with
          | some c1, some c2, some c3 =>
            let cp := (b % 0x8) * 0x40000 + c1 * 0x1000 + c2 * 0x40 + c3
            if 0x10000 ≤ cp ∧ cp ≤ 0x10FFFF then
              (decodeChars rest2).map (fun l => Char.ofNat cp :: l)
            else none
          | _, _, _ => none
        | _ => none
      else none
  | '%' :: _ => none
  | c :: rest => (decodeChars rest).map (fun l => c :: l)

/-- Model of `decodeURIComponent`; `none` models a thrown `URIError`. -/
def decodeURIComponent (s : String) : Option String :=
  (decodeChars s.data).map String.mk

/-! ### JSON-pointer segment transformation and `resolveRef` -/

/-- Models `segment.replace(/~1/g, '/')`: every occurrence of the two-character
sequence tilde-one becomes a slash, scanning left to right. -/
def replaceTilde1 : List Char → List Char
  | '~' :: '1' :: rest => '/' :: replaceTilde1 rest
  | c :: rest => c :: replaceTilde1 rest
  | [] => []

/-- Models `segment.replace(/~0/g, '~')`: every occurrence of the two-character
sequence tilde-zero becomes a tilde, scanning left to right. -/
def replaceTilde0 : List Char → List Char
  | '~' :: '0' :: rest => '~' :: replaceTilde0 rest
  | c :: rest => c :: replaceTilde0 rest
  | [] => []

/-- Segment transformation exactly as the source performs it:
`decodeURIComponent(segment.replace(/~1/g, '/').replace(/~0/g, '~'))` — the
tilde replacements happen first, percent-decoding last. -/
def decodeSegment (seg : List Char) : Option String :=
  (decodeChars (replaceTilde0 (replaceTilde1 seg))).map String.mk

/-- Segment transformation in the order the specification text states it
(percent-decode first, then tilde-one, then tilde-zero), defined only to be
compared against `decodeSegment`. -/
def decodeSegmentSpecOrder (seg : List Char) : Option String :=
  (decodeChars seg).map (fun dec => String.mk (replaceTilde0 (replaceTilde1 dec)))

/-- Models `String.prototype.split` with a single-character separator; an
empty input yields one empty segment, as in JavaScript. -/
def splitOnChar (sep : Char) : List Char → List (List Char)
  | [] => [[]]
  | c :: rest =>
    match splitOnChar sep rest with
    | [] => [[]]
    | h :: t => if c = sep then [] :: h :: t else (c :: h) :: t

/-- The marker object returned for a pointer that cannot be followed. -/
def unresolvableMarker (ref : String) : Value :=
  .vObj [("$unresolvableRef", .vStr ref)]

/-- The marker object returned when a reference cycle is detected. -/
def circularMarker (ref : String) : Value :=
  .vObj [("$circularRef", .vStr ref)]

/-- The segment walk inside `RefResolver.resolveRef`: transform each segment,
step into the current node, and return the unresolvable marker as soon as a
segment is missing; a malformed percent escape throws. -/
def resolveSegs (ref : String) (current : Value) : List (List Char) → Except JsError Value
  | [] => .ok current
  | seg :: rest =>
    match decodeSegment seg with
    | none => .error .uriMalformed
    | some key =>
      match jsGet current key with
      | some next => resolveSegs ref next rest
      | none => .ok (unresolvableMarker ref)

/-- Model of `RefResolver.resolveRef`: pointers not of the form `#/...`
immediately yield the unresolvable marker; otherwise the text after `#/` is
split on slashes and walked from the document root. -/
def resolveRef (spec : Value) (ref : String) : Except JsError Value :=
  match ref.data with
  | '#' :: '/' :: rest => resolveSegs ref spec (splitOnChar '/' rest)
  | _ => .ok (unresolvableMarker ref)

/-! ### Deep resolution (`resolveAllRefs`) -/

/-- The `$ref` pointer of an object, when it has a string-typed `$ref`
field (`'$ref' in typedObj && typeof typedObj.$ref === 'string'`). -/
def refOf (fields : List (String × Value)) : Option String :=
  match lookupField fields "$ref" with
  | some (.vStr r) => some r
  | _ => none

mutual

/-- Model of `RefResolver.resolveAllRefs(obj, maxDepth, currentDepth)`.  The
mutable `visitedRefs` set of the resolver instance is threaded explicitly and
returned alongside the result; a thrown exception is `.error` (the
post-exception set state is unobservable in the repository, which discards
the resolver on failure).  Termination of the JavaScript recursion is by the
same lexicographic measure used here: each `$ref` substitution consumes one
depth level and container descent is structural. -/
def resolveAllRefs (spec : Value) (maxDepth currentDepth : Nat)
    (visited : List String) (v : Value) : Except JsError (Value × List String) :=
  if _h : maxDepth ≤ currentDepth then .ok (v, visited)
  else
    match v with
    | .vNull => .ok (.vNull, visited)
    | .vArr items =>
      (resolveElems spec maxDepth currentDepth visited items).bind
        (fun lv => .ok (.vArr lv.1, lv.2))
    | .vBool b => .ok (.vBool b, visited)
    | .vNum n => .ok (.vNum n, visited)
    | .vStr s => .ok (.vStr s, visited)
    | .vObj fields =>
      match refOf fields with
      | some ref =>
        if visited.contains ref then .ok (circularMarker ref, visited)
        else
          (resolveRef spec ref).bind (fun resolved =>
            (resolveAllRefs spec maxDepth (currentDepth + 1) (ref :: visited) resolved).bind
              (fun rv => .ok (rv.1, rv.2.erase ref)))
      | none =>
        (resolveFields spec maxDepth currentDepth visited fields).bind
          (fun fv => .ok (.vObj fv.1, fv.2))
termination_by (maxDepth - currentDepth, sizeOf v)

/-- Models `obj.map(item => this.resolveAllRefs(item, maxDepth, currentDepth))`
with the visited set threaded through the elements in order. -/
def resolveElems (spec : Value) (maxDepth currentDepth : Nat)
    (visited : List String) : List Value → Except JsError (List Value × List String)
  | [] => .ok ([], visited)
  | x :: xs =>
    (resolveAllRefs spec maxDepth currentDepth visited x).bind (fun yv =>
      (resolveElems spec maxDepth currentDepth yv.2 xs).bind (fun ysv =>
        .ok (yv.1 :: ysv.1, ysv.2)))
termination_by l => (maxDepth - currentDepth, sizeOf l)

/-- Models the `for (const [key, value] of Object.entries(typedObj))` rebuild
loop with the visited set threaded through the fields in order. -/
def resolveFields (spec : Value) (maxDepth currentDepth : Nat)
    (visited : List String) : List (String × Value) → Except JsError (List (String × Value) × List String)
  | [] => .ok ([], visited)
  | (k, x) :: xs =>
    (resolveAllRefs spec maxDepth currentDepth visited x).bind (fun yv =>
      (resolveFields spec maxDepth currentDepth yv.2 xs).bind (fun ysv =>
        .ok ((k, yv.1) :: ysv.1, ysv.2)))
termination_by l => (maxDepth - currentDepth, sizeOf l)

end

/-! ### OpenAPIManager: index builders -/

/-- `EndpointInfo` of OpenAPIManager.ts.  The optional metadata fields are
modelled at the interface types (strings / string arrays); operations whose
metadata has other runtime types are outside this embedding. -/
structure EndpointInfo where
  path : String
  method : String
  summary : Option String
  description : Option String
  tags : Option (List String)
  operationId : Option String
deriving Repr

/-- `SchemaInfo` of OpenAPIManager.ts. -/
structure SchemaInfo where
  name : String
  type : Option String
  properties : Option (List String)
  description : Option String
deriving Repr

/-- String-typed property access used for interface-typed metadata fields. -/
def strField? (v : Value) (key : String) : Option String :=
  match jsGet v key with
  | some (.vStr s) => some s
  | _ => none

/-- All-strings view of a list of values, for the `tags` array. -/
def allStrs? : List Value → Option (List String)
  | [] => some []
  | .vStr s :: rest => (allStrs? rest).map (fun l => s :: l)
  | _ => none

/-- String-array-typed property access, for the `tags` field. -/
def strListField? (v : Value) (key : String) : Option (List String) :=
  match jsGet v key with
  | some (.vArr items) => allStrs? items
  | _ => none

/-- ASCII uppercasing, modelling `toUpperCase` on method names. -/
def jsToUpper (s : String) : String := String.mk (s.data.map Char.toUpper)

/-- ASCII lowercasing, modelling `toLowerCase`. -/
def jsToLower (s : String) : String := String.mk (s.data.map Char.toLower)

/-- The fixed verb list iterated by `buildEndpointIndex`. -/
def httpMethods : List String :=
  ["get", "post", "put", "patch", "delete", "options", "head", "trace"]

/-- The entry pushed for one `(path, verb)` pair: uppercased method, metadata
copied from the operation object. -/
def mkEndpointInfo (path m : String) (op : Value) : EndpointInfo :=
  { path := path
    method := jsToUpper m
    summary := strField? op "summary"
    description := strField? op "description"
    tags := strListField? op "tags"
    operationId := strField? op "operationId" }

/-- The entries emitted for one path item: the fixed verb list is scanned in
order and a truthy operation value yields one entry. -/
def endpointEntriesFor (path : String) (item : Value) : List EndpointInfo :=
  httpMethods.filterMap (fun m =>
    match jsGet item m with
    | some op => if truthy op then some (mkEndpointInfo path m op) else none
    | none => none)

/-- Model of `OpenAPIManager.buildEndpointIndex`: mirrors the imperative
double loop pushing entries into an accumulator array.  A falsy `paths`
field yields the empty index; a non-object `paths` value has no entries. -/
def buildEndpointIndex (spec : Value) : List EndpointInfo :=
  match jsGet spec "paths" with
  | some pathsVal =>
    if truthy pathsVal then
      match pathsVal with
      | .vObj entries =>
        entries.foldl (fun acc pe =>
          if truthy pe.2 then acc ++ endpointEntriesFor pe.1 pe.2 else acc) []
      | _ => []
    else []
  | none => []

/-- The endpoint index as the specification describes it: one entry per
`(path, verb)` pair whose operation value is present (truthy), paths in
document encounter order, verbs in the fixed order, built by direct list
concatenation.  Defined independently of `buildEndpointIndex` to be compared
with it. -/
def endpointIndexSpec (spec : Value) : List EndpointInfo :=
  match jsGet spec "paths" with
  | some pathsVal =>
    if truthy pathsVal then
      match pathsVal with
      | .vObj entries => entriesConcat entries
      | _ => []
    else []
  | none => []
where
  entriesConcat : List (String × Value) → List EndpointInfo
    | [] => []
    | pe :: rest =>
      (if truthy pe.2 then endpointEntriesFor pe.1 pe.2 else []) ++ entriesConcat rest

/-- Does an object value carry a `$ref` key (of any type)?  Models the
`'$ref' in schema` test of `buildSchemaIndex`; schema values are assumed to
be objects when truthy. -/
def hasRefKey : Value → Bool
  | .vObj fields => fields.any (fun kv => kv.1 = "$ref")
  | _ => false

/-- Key list of an object value, modelling `Object.keys`. -/
def jsKeys : Value → List String
  | .vObj fields => fields.map (fun kv => kv.1)
  | _ => []

/-- Optional chaining step: `a?.k` is `undefined` when `a` is `undefined` or
`null`, otherwise property access. -/
def optGet (v : Option Value) (key : String) : Option Value
  := match v with
  | some .vNull => none
  | some w => jsGet w key
  | none => none

/-- Model of `OpenAPIManager.buildSchemaIndex`: skips falsy schema values and
values carrying a `$ref` key; extracts `type`, the `properties` key list
(when `properties` is truthy) and `description`. -/
def buildSchemaIndex (spec : Value) : List SchemaInfo :=
  match optGet (jsGet spec "components") "schemas" with
  | some comps =>
    if truthy comps then
      match comps with
      | .vObj entries =>
        entries.foldl (fun acc kv =>
          if truthy kv.2 && !hasRefKey kv.2 then
            acc ++ [{ name := kv.1
                      type := strField? kv.2 "type"
                      properties := match jsGet kv.2 "properties" with
                        | some props => if truthy props then some (jsKeys props) else none
                        | none => none
                      description := strField? kv.2 "description" }]
          else acc) []
      | _ => []
    else []
  | none => []

/-! ### Search operations and the pagination envelope -/

/-- Normalize one `Array.prototype.slice` bound: negative indices count from
the end (clamped at zero), positive indices are clamped at the length. -/
def jsNormIdx (len : Nat) (i : Int) : Nat :=
  if i < 0 then (len + i).toNat else min i.toNat len

/-- Model of `Array.prototype.slice(s, e)` with JavaScript index
normalization. -/
def jsSlice {α : Type} (l : List α) (s e : Int) : List α :=
  (l.take (jsNormIdx l.length e)).drop (jsNormIdx l.length s)

/-- Models the `x || d` defaulting idiom on an optional number: absent or
zero (falsy) becomes the default. -/
def jsOrDefault (x : Option Int) (d : Int) : Int :=
  match x with
  | some n => if n = 0 then d else n
  | none => d

/-- Arguments of `searchEndpoints` / `search_endpoints`. -/
structure SearchEndpointsOptions where
  pathPattern : Option String
  method : Option String
  tags : Option (List String)
  description : Option String
  limit : Option Int
  offset : Option Int

/-- Truthiness guard on an optional string option: present and non-empty. -/
def strOptGiven : Option String → Option String
  | some p => if p.data.isEmpty then none else some p
  | none => none

/-- The filter pipeline of `OpenAPIManager.searchEndpoints`, before slicing.
`rtest pattern s` abstracts `new RegExp(pattern, 'i').test(s)`. -/
def searchEndpointsFiltered (rtest : String → String → Bool)
    (index : List EndpointInfo) (o : SearchEndpointsOptions) : List EndpointInfo :=
  let r1 := match strOptGiven o.pathPattern with
    | some p => index.filter (fun e => rtest p e.path)
    | none => index
  let r2 := match strOptGiven o.method with
    | some m => r1.filter (fun e => e.method = jsToUpper m)
    | none => r1
  let r3 := match o.tags with
    | some ts =>
      if ts.isEmpty then r2
      else r2.filter (fun e =>
        match e.tags with
        | some etags => ts.any (fun t => etags.contains t)
        | none => false)
    | none => r2
  let r4 := match strOptGiven o.description with
    | some d => r3.filter (fun e =>
        (match e.summary with
          | some s => !s.data.isEmpty && rtest d s
          | none => false) ||
        (match e.description with
          | some s => !s.data.isEmpty && rtest d s
          | none => false))
    | none => r3
  r4

/-- Result of `OpenAPIManager.searchEndpoints`. -/
structure SearchEndpointsResult where
  endpoints : List EndpointInfo
  total : Nat

/-- Model of `OpenAPIManager.searchEndpoints` on the cached endpoint index:
filters, then records the pre-slice total, then slices
`[offset, offset + limit)` with limit defaulting to 20 and offset to 0. -/
def searchEndpoints (rtest : String → String → Bool)
    (index : List EndpointInfo) (o : SearchEndpointsOptions) : SearchEndpointsResult :=
  let results := searchEndpointsFiltered rtest index o
  let total := results.length
  let offset := jsOrDefault o.offset 0
  let limit := jsOrDefault o.limit 20
  { endpoints := jsSlice results offset (offset + limit), total := total }

/-- The pagination envelope produced by the search tools. -/
structure Pagination where
  total : Nat
  limit : Int
  offset : Int
  hasMore : Bool
deriving Repr

/-- Result of `SearchEndpointsTool.execute`. -/
structure SearchEndpointsToolResult where
  success : Bool
  endpoints : List EndpointInfo
  pagination : Pagination

/-- Model of `SearchEndpointsTool.execute`: forwards the input to the
manager, re-derives the defaulted limit and offset, and computes `hasMore`
as `offset + endpoints.length < total`. -/
def searchEndpointsExecute (rtest : String → String → Bool)
    (index : List EndpointInfo) (input : SearchEndpointsOptions) : SearchEndpointsToolResult :=
  let r := searchEndpoints rtest index input
  let limit := jsOrDefault input.limit 20
  let offset := jsOrDefault input.offset 0
  { success := true
    endpoints := r.endpoints
    pagination :=
      { total := r.total
        limit := limit
        offset := offset
        hasMore := decide (offset + (r.endpoints.length : Int) < (r.total : Int)) } }

/-- Arguments of `searchSchemas` / `search_schemas`. -/
structure SearchSchemasOptions where
  namePattern : Option String
  propertyName : Option String
  limit : Option Int
  offset : Option Int

/-- Is `sub` a contiguous run of `l`?  Models `String.prototype.includes` on
the character lists. -/
def listHasRun (sub : List Char) : List Char → Bool
  | [] => sub.isEmpty
  | c :: t => startsWithRun sub (c :: t) || listHasRun sub t
where
  startsWithRun : List Char → List Char → Bool
    | [], _ => true
    | _ :: _, [] => false
    | a :: as, b :: bs => a == b && startsWithRun as bs

/-- The filter pipeline of `OpenAPIManager.searchSchemas`, before slicing. -/
def searchSchemasFiltered (rtest : String → String → Bool)
    (index : List SchemaInfo) (o : SearchSchemasOptions) : List SchemaInfo :=
  let r1 := match strOptGiven o.namePattern with
    | some p => index.filter (fun s => rtest p s.name)
    | none => index
  let r2 := match strOptGiven o.propertyName with
    | some p =>
      let propLower := jsToLower p
      r1.filter (fun s =>
        match s.properties with
        | some ps => ps.any (fun q => listHasRun propLower.data (jsToLower q).data)
        | none => false)
    | none => r1
  r2

/-- Result of `OpenAPIManager.searchSchemas`. -/
structure SearchSchemasResult where
  schemas : List SchemaInfo
  total : Nat

/-- Model of `OpenAPIManager.searchSchemas` on the cached schema index. -/
def searchSchemas (rtest : String → String → Bool)
    (index : List SchemaInfo) (o : SearchSchemasOptions) : SearchSchemasResult :=
  let results := searchSchemasFiltered rtest index o
  let total := results.length
  let offset := jsOrDefault o.offset 0
  let limit := jsOrDefault o.limit 20
  { schemas := jsSlice results offset (offset + limit), total := total }

/-- Result of `SearchSchemasTool.execute`. -/
structure SearchSchemasToolResult where
  success : Bool
  schemas : List SchemaInfo
  pagination : Pagination

/-- Model of `SearchSchemasTool.execute`. -/
def searchSchemasExecute (rtest : String → String → Bool)
    (index : List SchemaInfo) (input : SearchSchemasOptions) : SearchSchemasToolResult :=
  let r := searchSchemas rtest index input
  let limit := jsOrDefault input.limit 20
  let offset := jsOrDefault input.offset 0
  { success := true
    schemas := r.schemas
    pagination :=
      { total := r.total
        limit := limit
        offset := offset
        hasMore := decide (offset + (r.schemas.length : Int) < (r.total : Int)) } }

/-! ### Spec cache step and detail operations -/

/-- `CachedSpec` of OpenAPIManager.ts. -/
structure CachedSpec where
  spec : Value
  fetchedAt : Int
  endpointIndex : List EndpointInfo
  schemaIndex : List SchemaInfo

/-- The manager cache slot. -/
structure ManagerState where
  cache : Option CachedSpec

/-- One sequential `getSpec` call, with the fetch outcome injected: a valid
cache entry (age below the TTL) is returned with no fetch; otherwise the
fetch outcome is consulted — success installs a fresh entry with both
indexes, failure falls back to the stale entry when one exists and is
propagated otherwise. -/
def getSpecStep (cacheTtl now : Int) (fetchResult : Except JsError Value)
    (st : ManagerState) : Except JsError Value × ManagerState :=
  match st.cache with
  | some c =>
    if now - c.fetchedAt < cacheTtl then (.ok c.spec, st)
    else
      match fetchResult with
      | .ok spec =>
        (.ok spec, ⟨some ⟨spec, now, buildEndpointIndex spec, buildSchemaIndex spec⟩⟩)
      | .error _ => (.ok c.spec, st)
  | none =>
    match fetchResult with
    | .ok spec =>
      (.ok spec, ⟨some ⟨spec, now, buildEndpointIndex spec, buildSchemaIndex spec⟩⟩)
    | .error e => (.error e, st)

/-- Model of `clearCache`. -/
def clearCache (_st : ManagerState) : ManagerState := ⟨none⟩

/-- The lookup `spec.components?.schemas?.[schemaName]`. -/
def schemaLookup (spec : Value) (schemaName : String) : Option Value :=
  optGet (optGet (jsGet spec "components") "schemas") schemaName

/-- Model of `OpenAPIManager.getSchemaDetails` (after `getSpec` resolved to
`spec`): a falsy or absent schema value throws `Schema not found`; otherwise
the `\x7bname, schema\x7d` object is returned, with the schema resolved
through a fresh resolver when `resolveRefs` is set. -/
def getSchemaDetails (spec : Value) (schemaName : String)
    (resolveRefs : Bool) (maxDepth : Nat) : Except JsError Value :=
  match schemaLookup spec schemaName with
  | some s =>
    if truthy s then
      if resolveRefs then
        match resolveAllRefs spec maxDepth 0 [] s with
        | .error e => .error e
        | .ok (resolved, _) =>
          .ok (.vObj [("name", .vStr schemaName), ("schema", resolved)])
      else .ok (.vObj [("name", .vStr schemaName), ("schema", s)])
    else .error (.err ("Schema not found: " ++ schemaName))
  | none => .error (.err ("Schema not found: " ++ schemaName))



/-! ### Basic equations of the resolver -/

theorem resolveAllRefs_stop (spec : Value) (k d : Nat) (vis : List String) (v : Value)
    (h : k ≤ d) : resolveAllRefs spec k d vis v = .ok (v, vis) := by
  cases v <;> simp [resolveAllRefs, h]

theorem resolveAllRefs_null (spec : Value) (k d : Nat) (vis : List String) :
    resolveAllRefs spec k d vis .vNull = .ok (.vNull, vis) := by
  rw [resolveAllRefs]; split <;> rfl

theorem resolveAllRefs_bool (spec : Value) (k d : Nat) (vis : List String) (b : Bool) :
    resolveAllRefs spec k d vis (.vBool b) = .ok (.vBool b, vis) := by
  rw [resolveAllRefs]; split <;> rfl

theorem resolveAllRefs_num (spec : Value) (k d : Nat) (vis : List String) (n : Int) :
    resolveAllRefs spec k d vis (.vNum n) = .ok (.vNum n, vis) := by
  rw [resolveAllRefs]; split <;> rfl

theorem resolveAllRefs_str (spec : Value) (k d : Nat) (vis : List String) (s : String) :
    resolveAllRefs spec k d vis (.vStr s) = .ok (.vStr s, vis) := by
  rw [resolveAllRefs]; split <;> rfl

theorem resolveAllRefs_ref_step (spec : Value) (k d : Nat) (vis : List String)
    (fields : List (String × Value)) (r : String)
    (hd : d < k) (hr : refOf fields = some r) (hv : r ∉ vis) :
    resolveAllRefs spec k d vis (.vObj fields) =
      (resolveRef spec r).bind (fun resolved =>
        (resolveAllRefs spec k (d + 1) (r :: vis) resolved).bind
          (fun rv => .ok (rv.1, rv.2.erase r))) := by
  rw [resolveAllRefs]
  simp [Nat.not_le.mpr hd, hr, hv]

theorem resolveAllRefs_circular (spec : Value) (k d : Nat) (vis : List String)
    (fields : List (String × Value)) (r : String)
    (hd : d < k) (hr : refOf fields = some r) (hv : r ∈ vis) :
    resolveAllRefs spec k d vis (.vObj fields) = .ok (circularMarker r, vis) := by
  rw [resolveAllRefs]
  simp [Nat.not_le.mpr hd, hr, hv]

theorem resolveAllRefs_arr (spec : Value) (k d : Nat) (vis : List String)
    (items : List Value) (hd : d < k) :
    resolveAllRefs spec k d vis (.vArr items) =
      (resolveElems spec k d vis items).bind (fun lv => .ok (.vArr lv.1, lv.2)) := by
  rw [resolveAllRefs]
  simp [Nat.not_le.mpr hd]

theorem resolveAllRefs_plain_obj (spec : Value) (k d : Nat) (vis : List String)
    (fields : List (String × Value)) (hd : d < k) (hr : refOf fields = none) :
    resolveAllRefs spec k d vis (.vObj fields) =
      (resolveFields spec k d vis fields).bind (fun fv => .ok (.vObj fv.1, fv.2)) := by
  rw [resolveAllRefs]
  simp [Nat.not_le.mpr hd, hr]

theorem resolveElems_nil (spec : Value) (k d : Nat) (vis : List String) :
    resolveElems spec k d vis [] = .ok ([], vis) := by
  simp [resolveElems]

theorem resolveElems_cons (spec : Value) (k d : Nat) (vis : List String)
    (x : Value) (xs : List Value) :
    resolveElems spec k d vis (x :: xs) =
      (resolveAllRefs spec k d vis x).bind (fun yv =>
        (resolveElems spec k d yv.2 xs).bind (fun ysv =>
          .ok (yv.1 :: ysv.1, ysv.2))) := by
  rw [resolveElems]

theorem resolveFields_nil (spec : Value) (k d : Nat) (vis : List String) :
    resolveFields spec k d vis [] = .ok ([], vis) := by
  simp [resolveFields]

theorem resolveFields_cons (spec : Value) (k d : Nat) (vis : List String)
    (kx : String) (x : Value) (xs : List (String × Value)) :
    resolveFields spec k d vis ((kx, x) :: xs) =
      (resolveAllRefs spec k d vis x).bind (fun yv =>
        (resolveFields spec k d yv.2 xs).bind (fun ysv =>
          .ok ((kx, yv.1) :: ysv.1, ysv.2))) := by
  rw [resolveFields]

theorem resolveSegs_error_class (ref : String) (segs : List (List Char)) :
    ∀ (cur : Value) (e : JsError), resolveSegs ref cur segs = .error e → e = .uriMalformed := by
  induction segs with
  | nil => intro cur e h; simp [resolveSegs] at h
  | cons seg rest ih =>
    intro cur e h
    simp only [resolveSegs] at h
    split at h
    · exact (Except.error.inj h).symm
    · split at h
      · exact ih _ e h
      · simp at h

theorem resolveRef_error_class (spec : Value) (ref : String) (e : JsError)
    (h : resolveRef spec ref = .error e) : e = .uriMalformed := by
  unfold resolveRef at h
  split at h
  · exact resolveSegs_error_class ref _ spec e h
  · simp at h


/-- The invariant established for every call of the resolver family: a normal
return leaves the visited set exactly as it was on entry, and the only
exception that can escape is the percent-decoding one. -/
def RestoreOk {α : Type} (vis : List String) : Except JsError (α × List String) → Prop
  | .ok (_, vis2) => vis2 = vis
  | .error e => e = .uriMalformed

theorem restoreok_map {α β : Type} (g : α → β) (vis : List String)
    (t : Except JsError (α × List String)) (h : RestoreOk vis t) :
    RestoreOk vis (t.bind (fun av => .ok (g av.1, av.2))) := by
  cases t with
  | error e => exact h
  | ok p => obtain ⟨a, vis2⟩ := p; exact h

theorem restoreok_erase {α : Type} (r : String) (vis : List String)
    (t : Except JsError (α × List String)) (h : RestoreOk (r :: vis) t) :
    RestoreOk vis (t.bind (fun rv => .ok (rv.1, rv.2.erase r))) := by
  cases t with
  | error e => exact h
  | ok p =>
    obtain ⟨a, vis2⟩ := p
    have hv : vis2 = r :: vis := h
    subst hv
    show (r :: vis).erase r = vis
    exact List.erase_cons_head r vis

theorem resolve_restore_main (f : Nat) : ∀ (n : Nat),
    (∀ (spec : Value) (k d : Nat) (vis : List String) (v : Value),
      k - d ≤ f → sizeOf v < n → RestoreOk vis (resolveAllRefs spec k d vis v))
    ∧ (∀ (spec : Value) (k d : Nat) (vis : List String) (l : List Value),
      k - d ≤ f → sizeOf l < n → RestoreOk vis (resolveElems spec k d vis l))
    ∧ (∀ (spec : Value) (k d : Nat) (vis : List String) (l : List (String × Value)),
      k - d ≤ f → sizeOf l < n → RestoreOk vis (resolveFields spec k d vis l)) := by
  induction f with
  | zero =>
    intro n
    induction n with
    | zero =>
      exact ⟨fun _ _ _ _ v _ hs => absurd hs (Nat.not_lt_zero _),
             fun _ _ _ _ l _ hs => absurd hs (Nat.not_lt_zero _),
             fun _ _ _ _ l _ hs => absurd hs (Nat.not_lt_zero _)⟩
    | succ n ihn =>
      obtain ⟨ihv, ihl, ihg⟩ := ihn
      refine ⟨?_, ?_, ?_⟩
      · intro spec k d vis v hf _
        rw [resolveAllRefs_stop spec k d vis v (by omega)]
        rfl
      · intro spec k d vis l hf hs
        cases l with
        | nil => rw [resolveElems_nil]; rfl
        | cons x xs =>
          rw [resolveElems_cons, resolveAllRefs_stop spec k d vis x (by omega)]
          exact restoreok_map (fun ys => x :: ys) vis _
            (ihl spec k d vis xs hf (by simp at hs; omega))
      · intro spec k d vis l hf hs
        cases l with
        | nil => rw [resolveFields_nil]; rfl
        | cons x xs =>
          obtain ⟨kx, vx⟩ := x
          rw [resolveFields_cons, resolveAllRefs_stop spec k d vis vx (by omega)]
          exact restoreok_map (fun ys => (kx, vx) :: ys) vis _
            (ihg spec k d vis xs hf (by simp at hs; omega))
  | succ f ihf =>
    intro n
    induction n with
    | zero =>
      exact ⟨fun _ _ _ _ v _ hs => absurd hs (Nat.not_lt_zero _),
             fun _ _ _ _ l _ hs => absurd hs (Nat.not_lt_zero _),
             fun _ _ _ _ l _ hs => absurd hs (Nat.not_lt_zero _)⟩
    | succ n ihn =>
      obtain ⟨ihv, ihl, ihg⟩ := ihn
      refine ⟨?_, ?_, ?_⟩
      · intro spec k d vis v hf hs
        by_cases hkd : k ≤ d
        · rw [resolveAllRefs_stop spec k d vis v hkd]; rfl
        · have hdk : d < k := Nat.not_le.mp hkd
          cases v with
          | vNull => rw [resolveAllRefs_null]; rfl
          | vBool b => rw [resolveAllRefs_bool]; rfl
          | vNum m => rw [resolveAllRefs_num]; rfl
          | vStr s => rw [resolveAllRefs_str]; rfl
          | vArr items =>
            rw [resolveAllRefs_arr spec k d vis items hdk]
            exact restoreok_map Value.vArr vis _
              (ihl spec k d vis items hf (by simp at hs; omega))
          | vObj fields =>
            cases href : refOf fields with
            | none =>
              rw [resolveAllRefs_plain_obj spec k d vis fields hdk href]
              exact restoreok_map Value.vObj vis _
                (ihg spec k d vis fields hf (by simp at hs; omega))
            | some r =>
              by_cases hvr : r ∈ vis
              · rw [resolveAllRefs_circular spec k d vis fields r hdk href hvr]; rfl
              · rw [resolveAllRefs_ref_step spec k d vis fields r hdk href hvr]
                cases hrr : resolveRef spec r with
                | error e => exact resolveRef_error_class spec r e hrr
                | ok resolved =>
                  exact restoreok_erase r vis _
                    ((ihf (sizeOf resolved + 1)).1 spec k (d + 1) (r :: vis)
                      resolved (by omega) (by omega))
      · intro spec k d vis l hf hs
        cases l with
        | nil => rw [resolveElems_nil]; rfl
        | cons x xs =>
          rw [resolveElems_cons]
          have hxv := ihv spec k d vis x hf (by simp at hs; omega)
          cases hres : resolveAllRefs spec k d vis x with
          | error e => rw [hres] at hxv; exact hxv
          | ok p =>
            obtain ⟨y, vis1⟩ := p
            rw [hres] at hxv
            have hv1 : vis1 = vis := hxv
            rw [hv1]
            exact restoreok_map (fun ys => y :: ys) vis _
              (ihl spec k d vis xs hf (by simp at hs; omega))
      · intro spec k d vis l hf hs
        cases l with
        | nil => rw [resolveFields_nil]; rfl
        | cons x xs =>
          obtain ⟨kx, vx⟩ := x
          rw [resolveFields_cons]
          have hxv := ihv spec k d vis vx hf (by simp at hs; omega)
          cases hres : resolveAllRefs spec k d vis vx with
          | error e => rw [hres] at hxv; exact hxv
          | ok p =>
            obtain ⟨y, vis1⟩ := p
            rw [hres] at hxv
            have hv1 : vis1 = vis := hxv
            rw [hv1]
            exact restoreok_map (fun ys => (kx, y) :: ys) vis _
              (ihg spec k d vis xs hf (by simp at hs; omega))

/-- Visited-set restoration on every normal return, stated directly. -/
theorem resolveAllRefs_restores_visited (spec : Value) (k d : Nat)
    (vis : List String) (v w : Value) (vis2 : List String)
    (h : resolveAllRefs spec k d vis v = .ok (w, vis2)) : vis2 = vis := by
  have := (resolve_restore_main (k - d) (sizeOf v + 1)).1 spec k d vis v
    (Nat.le.refl) (Nat.lt_succ_self _)
  rw [h] at this
  exact this

/-- The only exception the resolver family can raise is the URIError from
percent-decoding. -/
theorem resolveAllRefs_error_class (spec : Value) (k d : Nat)
    (vis : List String) (v : Value) (e : JsError)
    (h : resolveAllRefs spec k d vis v = .error e) : e = .uriMalformed := by
  have := (resolve_restore_main (k - d) (sizeOf v + 1)).1 spec k d vis v
    (Nat.le.refl) (Nat.lt_succ_self _)
  rw [h] at this
  exact this

/-! ### Reference chains (depth accounting) -/

/-- A chain of `m` reference hops starting at `v` and ending at `w`: each step
is a reference node whose pointer is fresh for the active path and resolves to
the next value. -/
def RefChain (spec : Value) : Nat → List String → Value → Value → Prop
  | 0, _, v, w => w = v
  | m + 1, banned, v, w =>
    ∃ fields r v1, v = .vObj fields ∧ refOf fields = some r ∧ r ∉ banned ∧
      resolveRef spec r = .ok v1 ∧ RefChain spec m (r :: banned) v1 w

/-- Running the resolver with exactly as much depth budget as the chain is
long returns the chain end raw: the final value is handed back unchanged by
the depth guard, and the visited set is restored. -/
theorem resolveAllRefs_chain (spec : Value) (m : Nat) :
    ∀ (d : Nat) (vis : List String) (v w : Value),
      RefChain spec m vis v w →
      resolveAllRefs spec (d + m) d vis v = .ok (w, vis) := by
  induction m with
  | zero =>
    intro d vis v w hchain
    have hw : w = v := hchain
    subst hw
    exact resolveAllRefs_stop spec (d + 0) d vis w (by omega)
  | succ m ih =>
    intro d vis v w hchain
    obtain ⟨fields, r, v1, hv, hr, hb, hres, hrest⟩ := hchain
    subst hv
    rw [resolveAllRefs_ref_step spec (d + (m + 1)) d vis fields r (by omega) hr hb]
    rw [hres]
    show (resolveAllRefs spec (d + (m + 1)) (d + 1) (r :: vis) v1).bind
      (fun rv => Except.ok (rv.1, rv.2.erase r)) = Except.ok (w, vis)
    have harr : d + (m + 1) = (d + 1) + m := by omega
    rw [harr, ih (d + 1) (r :: vis) v1 w hrest]
    show Except.ok (w, (r :: vis).erase r) = Except.ok (w, vis)
    rw [List.erase_cons_head]

/-! ### Values without references -/

mutual

/-- No object anywhere in the value carries a `$ref` key. -/
def noRefs : Value → Bool
  | .vNull => true
  | .vBool _ => true
  | .vNum _ => true
  | .vStr _ => true
  | .vArr items => noRefsElems items
  | .vObj fields => !(fields.any (fun kv => kv.1 = "$ref")) && noRefsFields fields

/-- `noRefs` on every element. -/
def noRefsElems : List Value → Bool
  | [] => true
  | x :: xs => noRefs x && noRefsElems xs

/-- `noRefs` on every field value. -/
def noRefsFields : List (String × Value) → Bool
  | [] => true
  | kv :: xs => noRefs kv.2 && noRefsFields xs

end

theorem lookupField_ref_none (fields : List (String × Value))
    (h : fields.any (fun kv => kv.1 = "$ref") = false) :
    lookupField fields "$ref" = none := by
  induction fields with
  | nil => rfl
  | cons kv rest ih =>
    simp only [List.any_cons, Bool.or_eq_false_iff] at h
    obtain ⟨h1, h2⟩ := h
    obtain ⟨k, v⟩ := kv
    simp only [lookupField]
    rw [if_neg (by simpa using h1)]
    exact ih h2

theorem refOf_none_of_noRefs (fields : List (String × Value))
    (h : fields.any (fun kv => kv.1 = "$ref") = false) :
    refOf fields = none := by
  unfold refOf
  rw [lookupField_ref_none fields h]

/-- Main induction: on reference-free input the resolver family is the
identity (and restores the visited set). -/
theorem noRefs_resolve_main (n : Nat) :
    (∀ (spec : Value) (k d : Nat) (vis : List String) (v : Value),
      sizeOf v < n → noRefs v = true → resolveAllRefs spec k d vis v = .ok (v, vis))
    ∧ (∀ (spec : Value) (k d : Nat) (vis : List String) (l : List Value),
      sizeOf l < n → noRefsElems l = true → resolveElems spec k d vis l = .ok (l, vis))
    ∧ (∀ (spec : Value) (k d : Nat) (vis : List String) (l : List (String × Value)),
      sizeOf l < n → noRefsFields l = true → resolveFields spec k d vis l = .ok (l, vis)) := by
  induction n with
  | zero =>
    exact ⟨fun _ _ _ _ v hs => absurd hs (Nat.not_lt_zero _),
           fun _ _ _ _ l hs => absurd hs (Nat.not_lt_zero _),
           fun _ _ _ _ l hs => absurd hs (Nat.not_lt_zero _)⟩
  | succ n ihn =>
    obtain ⟨ihv, ihl, ihg⟩ := ihn
    refine ⟨?_, ?_, ?_⟩
    · intro spec k d vis v hs hn
      by_cases hkd : k ≤ d
      · exact resolveAllRefs_stop spec k d vis v hkd
      · have hdk : d < k := Nat.not_le.mp hkd
        cases v with
        | vNull => exact resolveAllRefs_null spec k d vis
        | vBool b => exact resolveAllRefs_bool spec k d vis b
        | vNum m => exact resolveAllRefs_num spec k d vis m
        | vStr s => exact resolveAllRefs_str spec k d vis s
        | vArr items =>
          rw [resolveAllRefs_arr spec k d vis items hdk]
          rw [ihl spec k d vis items (by simp at hs; omega) (by simpa [noRefs] using hn)]
          rfl
        | vObj fields =>
          have hn2 : fields.any (fun kv => kv.1 = "$ref") = false
              ∧ noRefsFields fields = true := by
            simpa [noRefs, Bool.and_eq_true, Bool.not_eq_true'] using hn
          rw [resolveAllRefs_plain_obj spec k d vis fields hdk
            (refOf_none_of_noRefs fields hn2.1)]
          rw [ihg spec k d vis fields (by simp at hs; omega) hn2.2]
          rfl
    · intro spec k d vis l hs hn
      cases l with
      | nil => exact resolveElems_nil spec k d vis
      | cons x xs =>
        simp only [noRefsElems, Bool.and_eq_true] at hn
        rw [resolveElems_cons]
        rw [ihv spec k d vis x (by simp at hs; omega) hn.1]
        show (resolveElems spec k d vis xs).bind _ = _
        rw [ihl spec k d vis xs (by simp at hs; omega) hn.2]
        rfl
    · intro spec k d vis l hs hn
      cases l with
      | nil => exact resolveFields_nil spec k d vis
      | cons kv xs =>
        obtain ⟨kx, vx⟩ := kv
        simp only [noRefsFields, Bool.and_eq_true] at hn
        rw [resolveFields_cons]
        rw [ihv spec k d vis vx (by simp at hs; omega) hn.1]
        show (resolveFields spec k d vis xs).bind _ = _
        rw [ihg spec k d vis xs (by simp at hs; omega) hn.2]
        rfl

/-! ### The specification-side pointer walk -/

/-- Walking a document one transformed segment at a time: the direct
formalization of the walk `resolveRef` is specified to perform. -/
def walkTo : Value → List (List Char) → Option Value
  | doc, [] => some doc
  | doc, seg :: rest =>
    match decodeSegment seg with
    | some key =>
      match jsGet doc key with
      | some c => walkTo c rest
      | none => none
    | none => none

theorem walkTo_resolveSegs (ref : String) (segs : List (List Char)) :
    ∀ (cur V : Value), walkTo cur segs = some V → resolveSegs ref cur segs = .ok V := by
  induction segs with
  | nil =>
    intro cur V h
    have hv : cur = V := Option.some.inj h
    subst hv
    rfl
  | cons seg rest ih =>
    intro cur V h
    cases hdec : decodeSegment seg with
    | none => simp only [walkTo, hdec] at h; exact Option.noConfusion h
    | some key =>
      cases hget : jsGet cur key with
      | none => simp only [walkTo, hdec, hget] at h; exact Option.noConfusion h
      | some c =>
        simp only [walkTo, hdec, hget] at h
        simp only [resolveSegs, hdec, hget]
        exact ih c V h

theorem resolveSegs_append_walk (ref : String) (pre : List (List Char)) :
    ∀ (cur node : Value) (segs2 : List (List Char)), walkTo cur pre = some node →
      resolveSegs ref cur (pre ++ segs2) = resolveSegs ref node segs2 := by
  induction pre with
  | nil =>
    intro cur node segs2 h
    have hv : cur = node := Option.some.inj h
    subst hv
    rfl
  | cons seg rest ih =>
    intro cur node segs2 h
    cases hdec : decodeSegment seg with
    | none => simp only [walkTo, hdec] at h; exact Option.noConfusion h
    | some key =>
      cases hget : jsGet cur key with
      | none => simp only [walkTo, hdec, hget] at h; exact Option.noConfusion h
      | some c =>
        simp only [walkTo, hdec, hget] at h
        show resolveSegs ref cur (seg :: (rest ++ segs2)) = resolveSegs ref node segs2
        simp only [resolveSegs, hdec, hget]
        exact ih c node segs2 h

theorem splitOnChar_no_sep (sep : Char) (s : List Char) (h : sep ∉ s) :
    splitOnChar sep s = [s] := by
  induction s with
  | nil => rfl
  | cons c rest ih =>
    have hc : c ≠ sep := fun hcc => h (hcc ▸ List.mem_cons_self c rest)
    have hrest : sep ∉ rest := fun hr => h (List.mem_cons_of_mem c hr)
    simp only [splitOnChar, ih hrest]
    rw [if_neg hc]

/-! ### Concrete documents used by the witnesses and counterexamples -/

/-- A document with a three-hop reference chain a → b → c → d. -/
def chainSpec : Value :=
  .vObj [("a", .vObj [("$ref", .vStr "#/b")]),
         ("b", .vObj [("$ref", .vStr "#/c")]),
         ("c", .vObj [("$ref", .vStr "#/d")]),
         ("d", .vNum 7)]

/-- A document with the reference cycle A → B → A. -/
def cycleSpec : Value :=
  .vObj [("A", .vObj [("$ref", .vStr "#/B")]),
         ("B", .vObj [("$ref", .vStr "#/A")])]

/-- C1: for every value, document and maxDepth k, the resolver expands at
most k nested reference indirections — a call at currentDepth at or above k
returns the value unchanged; a reference substitution recurses at depth
plus one; array elements and plain object fields are resolved at the same
depth; and a chain of exactly k pending reference hops ends with the raw
(possibly still-reference) value returned unchanged by the depth guard. -/
theorem claim1_depth_limits_ref_expansion :
    (∀ (spec : Value) (k d : Nat) (vis : List String) (v : Value), k ≤ d →
      resolveAllRefs spec k d vis v = .ok (v, vis))
    ∧ (∀ (spec : Value) (k : Nat) (vis : List String) (v w : Value),
      RefChain spec k vis v w →
      resolveAllRefs spec k 0 vis v = .ok (w, vis))
    ∧ (∀ (spec : Value) (k d : Nat) (vis : List String) (items : List Value), d < k →
      resolveAllRefs spec k d vis (.vArr items) =
        (resolveElems spec k d vis items).bind (fun lv => .ok (.vArr lv.1, lv.2)))
    ∧ (∀ (spec : Value) (k d : Nat) (vis : List String) (fields : List (String × Value)),
      d < k → refOf fields = none →
      resolveAllRefs spec k d vis (.vObj fields) =
        (resolveFields spec k d vis fields).bind (fun fv => .ok (.vObj fv.1, fv.2)))
    ∧ (∀ (spec : Value) (k d : Nat) (vis : List String)
        (fields : List (String × Value)) (r : String),
      d < k → refOf fields = some r → r ∉ vis →
      resolveAllRefs spec k d vis (.vObj fields) =
        (resolveRef spec r).bind (fun resolved =>
          (resolveAllRefs spec k (d + 1) (r :: vis) resolved).bind
            (fun rv => .ok (rv.1, rv.2.erase r)))) := by
  refine ⟨resolveAllRefs_stop, ?_, ?_, ?_, ?_⟩
  · intro spec k vis v w hchain
    have := resolveAllRefs_chain spec k 0 vis v w hchain
    rwa [Nat.zero_add] at this
  · intro spec k d vis items hd
    exact resolveAllRefs_arr spec k d vis items hd
  · intro spec k d vis fields hd hr
    exact resolveAllRefs_plain_obj spec k d vis fields hd hr
  · intro spec k d vis fields r hd hr hv
    exact resolveAllRefs_ref_step spec k d vis fields r hd hr hv

/-- Witness for C1 on `chainSpec`: the depth guard returns a value unchanged;
with budget 2, the chain a → b → c stops at the raw reference object
pointing at d; the array, plain-object and reference unfoldings hold at a
concrete instance. -/
theorem claim1_depth_limits_ref_expansion_witness :
    resolveAllRefs chainSpec 3 5 ["x"] (.vNum 9) = .ok (.vNum 9, ["x"])
    ∧ resolveAllRefs chainSpec 2 0 [] (.vObj [("$ref", .vStr "#/b")]) =
        .ok (.vObj [("$ref", .vStr "#/d")], [])
    ∧ resolveAllRefs chainSpec 1 0 [] (.vArr [.vNum 4]) =
        (resolveElems chainSpec 1 0 [] [.vNum 4]).bind (fun lv => .ok (.vArr lv.1, lv.2))
    ∧ resolveAllRefs chainSpec 1 0 [] (.vObj [("x", .vNum 4)]) =
        (resolveFields chainSpec 1 0 [] [("x", .vNum 4)]).bind (fun fv => .ok (.vObj fv.1, fv.2))
    ∧ resolveAllRefs chainSpec 5 0 [] (.vObj [("$ref", .vStr "#/b")]) =
        (resolveRef chainSpec "#/b").bind (fun resolved =>
          (resolveAllRefs chainSpec 5 1 ["#/b"] resolved).bind
            (fun rv => .ok (rv.1, rv.2.erase "#/b"))) := by
  refine ⟨claim1_depth_limits_ref_expansion.1 chainSpec 3 5 ["x"] (.vNum 9) (by omega),
          claim1_depth_limits_ref_expansion.2.1 chainSpec 2 [] _ _ ?_,
          claim1_depth_limits_ref_expansion.2.2.1 chainSpec 1 0 [] [.vNum 4] (by omega),
          claim1_depth_limits_ref_expansion.2.2.2.1 chainSpec 1 0 [] [("x", .vNum 4)]
            (by omega) (by rfl),
          claim1_depth_limits_ref_expansion.2.2.2.2 chainSpec 5 0 [] [("$ref", .vStr "#/b")]
            "#/b" (by omega) (by rfl) (by simp)⟩
  refine ⟨[("$ref", .vStr "#/b")], "#/b", .vObj [("$ref", .vStr "#/c")],
    rfl, rfl, by simp, by rfl, ?_⟩
  refine ⟨[("$ref", .vStr "#/c")], "#/c", .vObj [("$ref", .vStr "#/d")],
    rfl, rfl, by simp, by rfl, rfl⟩

/-- C2: cycle handling.  A reference whose pointer is already on the active
resolution path yields the circular marker (conjunct one); every normal
return restores the visited set to its entry state, so the pointer pushed
for a hop is removed before the enclosing call returns (conjunct two); on
the concrete two-element cycle A → B → A the resolver — a total function of
this embedding, so termination is by construction — produces the circular
marker for the re-encountered pointer and ends with an empty visited set
(conjunct three). -/
theorem claim2_cycles_yield_markers :
    (∀ (spec : Value) (k d : Nat) (vis : List String)
        (fields : List (String × Value)) (r : String),
      d < k → refOf fields = some r → r ∈ vis →
      resolveAllRefs spec k d vis (.vObj fields) = .ok (circularMarker r, vis))
    ∧ (∀ (spec : Value) (k d : Nat) (vis : List String) (v w : Value) (vis2 : List String),
      resolveAllRefs spec k d vis v = .ok (w, vis2) → vis2 = vis)
    ∧ resolveAllRefs cycleSpec 5 0 [] (.vObj [("$ref", .vStr "#/B")]) =
        .ok (circularMarker "#/B", []) := by
  refine ⟨?_, ?_, ?_⟩
  · intro spec k d vis fields r hd hr hv
    exact resolveAllRefs_circular spec k d vis fields r hd hr hv
  · intro spec k d vis v w vis2 h
    exact resolveAllRefs_restores_visited spec k d vis v w vis2 h
  · have hB : resolveRef cycleSpec "#/B" = .ok (.vObj [("$ref", .vStr "#/A")]) := rfl
    have hA : resolveRef cycleSpec "#/A" = .ok (.vObj [("$ref", .vStr "#/B")]) := rfl
    simp [resolveAllRefs, refOf, lookupField, hB, hA, circularMarker, Except.bind]

/-- Witness for C2: the circular-marker rule applied on the cycle document
with the pointer already on the path, and visited-set restoration applied to
a concrete successful resolution. -/
theorem claim2_cycles_yield_markers_witness :
    resolveAllRefs cycleSpec 5 1 ["#/B"] (.vObj [("$ref", .vStr "#/B")]) =
      .ok (circularMarker "#/B", ["#/B"])
    ∧ ((fun vis2 => vis2 = ["z"]) ["z"]) := by
  refine ⟨claim2_cycles_yield_markers.1 cycleSpec 5 1 ["#/B"] _ "#/B"
      (by omega) (by rfl) (by simp), ?_⟩
  exact claim2_cycles_yield_markers.2.1 cycleSpec 5 7 ["z"] (.vNum 1) (.vNum 1) ["z"]
    (resolveAllRefs_stop cycleSpec 5 7 ["z"] (.vNum 1) (by omega))

/-- A small document with components.schemas.User and a scalar field. -/
def sampleDoc : Value :=
  .vObj [("components", .vObj [("schemas", .vObj [("User", .vObj [("type", .vStr "object")])])]),
         ("x", .vNum 5)]

/-- C3: pointer resolution agrees with the segment walk.  If walking the
document one transformed segment at a time reaches a value, `resolveRef`
returns exactly that value; a pointer not of the `#/` shape yields the
unresolvable marker immediately; and a walk that dies at a missing key or a
non-container node yields the unresolvable marker instead of an error. -/
theorem claim3_resolve_pointer_walk :
    (∀ (doc V : Value) (P : String) (rest : List Char),
      P.data = '#' :: '/' :: rest →
      walkTo doc (splitOnChar '/' rest) = some V →
      resolveRef doc P = .ok V)
    ∧ (∀ (doc : Value) (P : String),
      (∀ rest : List Char, P.data ≠ '#' :: '/' :: rest) →
      resolveRef doc P = .ok (unresolvableMarker P))
    ∧ (∀ (doc node : Value) (P : String) (rest : List Char)
        (pre : List (List Char)) (seg : List Char) (segs2 : List (List Char)) (key : String),
      P.data = '#' :: '/' :: rest →
      splitOnChar '/' rest = pre ++ seg :: segs2 →
      walkTo doc pre = some node →
      decodeSegment seg = some key →
      jsGet node key = none →
      resolveRef doc P = .ok (unresolvableMarker P)) := by
  refine ⟨?_, ?_, ?_⟩
  · intro doc V P rest hP hwalk
    unfold resolveRef
    rw [hP]
    exact walkTo_resolveSegs P (splitOnChar '/' rest) doc V hwalk
  · intro doc P h
    unfold resolveRef
    split
    · next rest heq => exact absurd heq (h rest)
    · rfl
  · intro doc node P rest pre seg segs2 key hP hsplit hwalk hdec hget
    unfold resolveRef
    rw [hP]
    show resolveSegs P doc (splitOnChar '/' rest) = .ok (unresolvableMarker P)
    rw [hsplit, resolveSegs_append_walk P pre doc node (seg :: segs2) hwalk]
    simp only [resolveSegs, hdec, hget]

/-- Witness for C3 on `sampleDoc`: a three-segment pointer reaches the User
schema; a bare name yields the unresolvable marker; a pointer whose second
segment steps into a scalar yields the unresolvable marker. -/
theorem claim3_resolve_pointer_walk_witness :
    resolveRef sampleDoc "#/components/schemas/User" = .ok (.vObj [("type", .vStr "object")])
    ∧ resolveRef sampleDoc "User" = .ok (unresolvableMarker "User")
    ∧ resolveRef sampleDoc "#/x/y" = .ok (unresolvableMarker "#/x/y") := by
  refine ⟨claim3_resolve_pointer_walk.1 sampleDoc _ _ ("components/schemas/User".data)
      (by rfl) (by rfl),
    claim3_resolve_pointer_walk.2.1 sampleDoc "User" ?_,
    claim3_resolve_pointer_walk.2.2 sampleDoc (.vNum 5) "#/x/y" ("x/y".data)
      [['x']] ['y'] [] "y" (by rfl) (by rfl) (by rfl) (by rfl) (by rfl)⟩
  intro rest h
  have h0 : "User".data.head? = some 'U' := rfl
  rw [h] at h0
  exact absurd (Option.some.inj h0) (by decide)

/-- The document that distinguishes the two segment-transformation orders. -/
def tildeDoc : Value := .vObj [("~1", .vNum 1), ("/", .vNum 2)]

/-- Counterexample to C4 as stated: on the segment `%7E1` the code order
(tilde replacements first, percent-decode last) produces the lookup key
`~1`, while the claimed order (percent-decode first, then the tilde
replacements) would produce `/`; on `tildeDoc` the pointer `#/%7E1`
resolves to the value stored under `~1`, not the one under `/`. -/
theorem claim4_order_counterexample :
    decodeSegment ("%7E1".data) = some "~1"
    ∧ decodeSegmentSpecOrder ("%7E1".data) = some "/"
    ∧ decodeSegment ("%7E1".data) ≠ decodeSegmentSpecOrder ("%7E1".data)
    ∧ resolveRef tildeDoc "#/%7E1" = .ok (.vNum 1)
    ∧ jsGet tildeDoc "/" = some (.vNum 2) :=
  ⟨by decide, by decide, by decide, by rfl, by rfl⟩

/-- C4 amended: each pointer segment is transformed by replacing every `~1`
with `/`, then every `~0` with `~` — both as literal substring replacement —
and percent-decoding the result last; the lookup key used against the
document is the result of exactly that pipeline. -/
theorem claim4_segment_transform_amended (doc v : Value) (s : List Char) (key : String)
    (hs : '/' ∉ s)
    (hdec : decodeSegment s = some key)
    (hget : jsGet doc key = some v) :
    resolveRef doc (String.mk ('#' :: '/' :: s)) = .ok v
    ∧ decodeSegment s = (decodeChars (replaceTilde0 (replaceTilde1 s))).map String.mk := by
  refine ⟨?_, rfl⟩
  unfold resolveRef
  show resolveSegs (String.mk ('#' :: '/' :: s)) doc (splitOnChar '/' s) = .ok v
  rw [splitOnChar_no_sep '/' s hs]
  simp only [resolveSegs, hdec, hget]

/-- Witness for the amended C4 on `tildeDoc` with the segment `%7E1`. -/
theorem claim4_segment_transform_amended_witness :
    resolveRef tildeDoc (String.mk ('#' :: '/' :: "%7E1".data)) = .ok (.vNum 1)
    ∧ decodeSegment ("%7E1".data) =
        (decodeChars (replaceTilde0 (replaceTilde1 ("%7E1".data)))).map String.mk :=
  claim4_segment_transform_amended tildeDoc (.vNum 1) ("%7E1".data) "~1"
    (by decide) (by decide) (by rfl)

/-- C9: resolving a value with no `$ref` field anywhere returns a
structurally equal value, for every document, depth limit, current depth and
visited set. -/
theorem claim9_resolution_idempotent_without_refs
    (spec : Value) (k d : Nat) (vis : List String) (v : Value)
    (h : noRefs v = true) :
    resolveAllRefs spec k d vis v = .ok (v, vis) :=
  (noRefs_resolve_main (sizeOf v + 1)).1 spec k d vis v (Nat.lt_succ_self _) h

/-- Witness for C9 on a reference-free schema object. -/
theorem claim9_resolution_idempotent_without_refs_witness :
    resolveAllRefs sampleDoc 5 0 []
        (.vObj [("type", .vStr "object"), ("items", .vArr [.vNull, .vNum 3])]) =
      .ok (.vObj [("type", .vStr "object"), ("items", .vArr [.vNull, .vNum 3])], []) :=
  claim9_resolution_idempotent_without_refs sampleDoc 5 0 [] _
    (by simp [noRefs, noRefsElems, noRefsFields])

/-- C5: for both search operations, filters are applied before slicing; the
returned page is exactly the slice `[offset, offset + limit)` of the
filtered sequence; `total` is the pre-slice filtered length, which does not
depend on `limit` or `offset`; and `hasMore` is exactly
`offset + length(page) < total`. -/
theorem claim5_pagination_invariant :
    (∀ (rtest : String → String → Bool) (index : List EndpointInfo)
        (o : SearchEndpointsOptions),
      (searchEndpointsExecute rtest index o).endpoints =
        jsSlice (searchEndpointsFiltered rtest index o)
          (jsOrDefault o.offset 0) (jsOrDefault o.offset 0 + jsOrDefault o.limit 20)
      ∧ (searchEndpointsExecute rtest index o).pagination.total =
          (searchEndpointsFiltered rtest index o).length
      ∧ (searchEndpointsExecute rtest index o).pagination.hasMore =
          decide (jsOrDefault o.offset 0 +
            ((searchEndpointsExecute rtest index o).endpoints.length : Int) <
            ((searchEndpointsFiltered rtest index o).length : Int)))
    ∧ (∀ (rtest : String → String → Bool) (index : List EndpointInfo)
        (p m : Option String) (t : Option (List String)) (dsc : Option String)
        (l1 l2 of1 of2 : Option Int),
      searchEndpointsFiltered rtest index ⟨p, m, t, dsc, l1, of1⟩ =
        searchEndpointsFiltered rtest index ⟨p, m, t, dsc, l2, of2⟩)
    ∧ (∀ (rtest : String → String → Bool) (index : List SchemaInfo)
        (o : SearchSchemasOptions),
      (searchSchemasExecute rtest index o).schemas =
        jsSlice (searchSchemasFiltered rtest index o)
          (jsOrDefault o.offset 0) (jsOrDefault o.offset 0 + jsOrDefault o.limit 20)
      ∧ (searchSchemasExecute rtest index o).pagination.total =
          (searchSchemasFiltered rtest index o).length
      ∧ (searchSchemasExecute rtest index o).pagination.hasMore =
          decide (jsOrDefault o.offset 0 +
            ((searchSchemasExecute rtest index o).schemas.length : Int) <
            ((searchSchemasFiltered rtest index o).length : Int)))
    ∧ (∀ (rtest : String → String → Bool) (index : List SchemaInfo)
        (np pn : Option String) (l1 l2 of1 of2 : Option Int),
      searchSchemasFiltered rtest index ⟨np, pn, l1, of1⟩ =
        searchSchemasFiltered rtest index ⟨np, pn, l2, of2⟩) :=
  ⟨fun _ _ _ => ⟨rfl, rfl, rfl⟩,
   fun _ _ _ _ _ _ _ _ _ _ => rfl,
   fun _ _ _ => ⟨rfl, rfl, rfl⟩,
   fun _ _ _ _ _ _ _ _ => rfl⟩

/-- C10: an explicit limit of zero is coerced to the default of twenty by the
falsy-defaulting idiom, and an explicit offset of zero coincides with the
default; the page returned under a zero limit therefore has at most twenty
entries and is non-empty whenever the filtered sequence is. -/
theorem claim10_limit_zero_is_default :
    (∀ (rtest : String → String → Bool) (index : List EndpointInfo)
        (p m : Option String) (t : Option (List String)) (dsc : Option String)
        (off : Option Int),
      searchEndpointsExecute rtest index ⟨p, m, t, dsc, some 0, off⟩ =
        searchEndpointsExecute rtest index ⟨p, m, t, dsc, none, off⟩)
    ∧ (∀ (rtest : String → String → Bool) (index : List EndpointInfo)
        (p m : Option String) (t : Option (List String)) (dsc : Option String)
        (lim : Option Int),
      searchEndpointsExecute rtest index ⟨p, m, t, dsc, lim, some 0⟩ =
        searchEndpointsExecute rtest index ⟨p, m, t, dsc, lim, none⟩)
    ∧ (∀ (rtest : String → String → Bool) (index : List SchemaInfo)
        (np pn : Option String) (off : Option Int),
      searchSchemasExecute rtest index ⟨np, pn, some 0, off⟩ =
        searchSchemasExecute rtest index ⟨np, pn, none, off⟩)
    ∧ (∀ (rtest : String → String → Bool) (index : List SchemaInfo)
        (np pn : Option String) (lim : Option Int),
      searchSchemasExecute rtest index ⟨np, pn, lim, some 0⟩ =
        searchSchemasExecute rtest index ⟨np, pn, lim, none⟩)
    ∧ (∀ (rtest : String → String → Bool) (index : List EndpointInfo)
        (p m : Option String) (t : Option (List String)) (dsc : Option String)
        (off : Option Int),
      (searchEndpointsExecute rtest index ⟨p, m, t, dsc, some 0, off⟩).endpoints.length ≤ 20)
    ∧ (∀ (rtest : String → String → Bool) (index : List EndpointInfo)
        (p m : Option String) (t : Option (List String)) (dsc : Option String),
      searchEndpointsFiltered rtest index ⟨p, m, t, dsc, some 0, some 0⟩ ≠ [] →
      (searchEndpointsExecute rtest index ⟨p, m, t, dsc, some 0, some 0⟩).endpoints ≠ [])
    ∧ (∀ (rtest : String → String → Bool) (index : List SchemaInfo)
        (np pn : Option String),
      searchSchemasFiltered rtest index ⟨np, pn, some 0, some 0⟩ ≠ [] →
      (searchSchemasExecute rtest index ⟨np, pn, some 0, some 0⟩).schemas ≠ []) := by
  refine ⟨fun _ _ _ _ _ _ _ => rfl, fun _ _ _ _ _ _ _ => rfl,
          fun _ _ _ _ _ => rfl, fun _ _ _ _ _ => rfl, ?_, ?_, ?_⟩
  · intro rtest index p m t dsc off
    show (jsSlice (searchEndpointsFiltered rtest index ⟨p, m, t, dsc, some 0, off⟩)
      (jsOrDefault off 0) (jsOrDefault off 0 + 20)).length ≤ 20
    generalize searchEndpointsFiltered rtest index ⟨p, m, t, dsc, some 0, off⟩ = L
    generalize jsOrDefault off 0 = o
    simp only [jsSlice, jsNormIdx, List.length_drop, List.length_take]
    split_ifs <;> omega
  · intro rtest index p m t dsc hne
    show jsSlice (searchEndpointsFiltered rtest index ⟨p, m, t, dsc, some 0, some 0⟩) 0 20 ≠ []
    generalize hL : searchEndpointsFiltered rtest index ⟨p, m, t, dsc, some 0, some 0⟩ = L at hne
    have hlen : 0 < L.length := List.length_pos.mpr hne
    have : (jsSlice L 0 20).length ≠ 0 := by
      simp only [jsSlice, jsNormIdx, List.length_drop, List.length_take]
      split_ifs <;> omega
    exact fun hnil => this (by rw [hnil]; rfl)
  · intro rtest index np pn hne
    show jsSlice (searchSchemasFiltered rtest index ⟨np, pn, some 0, some 0⟩) 0 20 ≠ []
    generalize hL : searchSchemasFiltered rtest index ⟨np, pn, some 0, some 0⟩ = L at hne
    have hlen : 0 < L.length := List.length_pos.mpr hne
    have : (jsSlice L 0 20).length ≠ 0 := by
      simp only [jsSlice, jsNormIdx, List.length_drop, List.length_take]
      split_ifs <;> omega
    exact fun hnil => this (by rw [hnil]; rfl)

/-- Witness for C10 on a one-entry endpoint index and a one-entry schema
index with no filters: the limit-zero page is the whole index, not empty. -/
theorem claim10_limit_zero_is_default_witness :
    (searchEndpointsExecute (fun _ _ => true)
      [⟨"/pets", "GET", none, none, none, none⟩]
      ⟨none, none, none, none, some 0, some 0⟩).endpoints ≠ []
    ∧ (searchSchemasExecute (fun _ _ => true)
      [⟨"User", none, none, none⟩]
      ⟨none, none, some 0, some 0⟩).schemas ≠ [] :=
  ⟨claim10_limit_zero_is_default.2.2.2.2.2.1 (fun _ _ => true)
      [⟨"/pets", "GET", none, none, none, none⟩] none none none none
      (fun h => List.noConfusion h),
   claim10_limit_zero_is_default.2.2.2.2.2.2 (fun _ _ => true)
      [⟨"User", none, none, none⟩] none none (fun h => List.noConfusion h)⟩

/-- C6: the stale-cache fallback of `getSpec`.  With a cached entry whose age
has reached the TTL, a failing fetch still returns the cached document and
leaves the entry untouched; with an empty cache a failing fetch propagates
the error and the cache stays empty. -/
theorem claim6_stale_cache_fallback :
    (∀ (ttl now : Int) (e : JsError) (c : CachedSpec),
      ttl ≤ now - c.fetchedAt →
      getSpecStep ttl now (.error e) ⟨some c⟩ = (.ok c.spec, ⟨some c⟩))
    ∧ (∀ (ttl now : Int) (e : JsError),
      getSpecStep ttl now (.error e) ⟨none⟩ = (.error e, ⟨none⟩)) := by
  constructor
  · intro ttl now e c h
    simp only [getSpecStep]
    rw [if_neg (not_lt.mpr h)]
  · intro ttl now e
    rfl

/-- Witness for C6, the stale-fallback scenario: a first successful fetch at
time 0 populates the cache; at time 400 (TTL 300) a failing fetch still
returns the first document with the entry unchanged; from an empty cache the
same failure propagates. -/
theorem claim6_stale_cache_fallback_witness :
    getSpecStep 300 400 (.error (.err "network"))
        ((getSpecStep 300 0 (.ok sampleDoc) ⟨none⟩).2) =
      (.ok sampleDoc, (getSpecStep 300 0 (.ok sampleDoc) ⟨none⟩).2)
    ∧ getSpecStep 300 400 (.error (.err "network")) ⟨none⟩ =
        (.error (.err "network"), ⟨none⟩) := by
  constructor
  · have hstate : (getSpecStep 300 0 (.ok sampleDoc) ⟨none⟩).2 =
        ⟨some ⟨sampleDoc, 0, buildEndpointIndex sampleDoc, buildSchemaIndex sampleDoc⟩⟩ := rfl
    rw [hstate]
    exact claim6_stale_cache_fallback.1 300 400 (.err "network")
      ⟨sampleDoc, 0, buildEndpointIndex sampleDoc, buildSchemaIndex sampleDoc⟩
      (by show (300 : Int) ≤ 400 - (0 : Int); omega)
  · exact claim6_stale_cache_fallback.2 300 400 (.err "network")

theorem buildEndpointIndex_foldl_concat (entries : List (String × Value)) :
    ∀ (acc : List EndpointInfo),
      entries.foldl (fun acc pe =>
        if truthy pe.2 then acc ++ endpointEntriesFor pe.1 pe.2 else acc) acc =
      acc ++ endpointIndexSpec.entriesConcat entries := by
  induction entries with
  | nil => intro acc; simp [endpointIndexSpec.entriesConcat]
  | cons pe rest ih =>
    intro acc
    simp only [List.foldl_cons, endpointIndexSpec.entriesConcat]
    by_cases h : truthy pe.2
    · rw [if_pos h, if_pos h, ih (acc ++ endpointEntriesFor pe.1 pe.2), List.append_assoc]
    · rw [if_neg h, if_neg h, ih acc, List.nil_append]

/-- The document of the concrete scenario: one path with GET and POST. -/
def petsDoc : Value :=
  .vObj [("paths", .vObj [("/pets", .vObj
    [("get", .vObj [("summary", .vStr "List pets")]),
     ("post", .vObj [])])])]

/-- C7: the endpoint index is exactly one entry per (path, verb) pair with a
present (truthy) operation value, paths in document encounter order and
verbs in the fixed GET, POST, PUT, PATCH, DELETE, OPTIONS, HEAD, TRACE
order, with the method uppercased and the metadata copied; and on the
concrete pets document it has exactly the two entries GET before POST. -/
theorem claim7_endpoint_index_structure :
    (∀ (spec : Value), buildEndpointIndex spec = endpointIndexSpec spec)
    ∧ buildEndpointIndex petsDoc =
        [⟨"/pets", "GET", some "List pets", none, none, none⟩,
         ⟨"/pets", "POST", none, none, none, none⟩] := by
  constructor
  · intro spec
    unfold buildEndpointIndex endpointIndexSpec
    cases jsGet spec "paths" with
    | none => rfl
    | some pathsVal =>
      dsimp only
      by_cases h : truthy pathsVal
      · rw [if_pos h, if_pos h]
        cases pathsVal with
        | vObj entries => exact buildEndpointIndex_foldl_concat entries []
        | vNull => rfl
        | vBool b => rfl
        | vNum n => rfl
        | vStr s => rfl
        | vArr l => rfl
      · rw [if_neg h, if_neg h]
  · rfl

/-- A document whose schemas map carries a key with a falsy (null) value next
to an ordinary schema. -/
def nullSchemaDoc : Value :=
  .vObj [("components", .vObj [("schemas", .vObj
    [("Empty", .vNull),
     ("User", .vObj [("type", .vStr "string")])])])]

/-- Counterexample to C8 as stated: the key `Empty` is present in
components.schemas as an exact match, yet `getSchemaDetails` fails with the
NotFound error, because the source guards with a truthiness test rather
than a key-presence test. -/
theorem claim8_notfound_counterexample :
    schemaLookup nullSchemaDoc "Empty" = some .vNull
    ∧ getSchemaDetails nullSchemaDoc "Empty" true 5 =
        .error (.err "Schema not found: Empty") :=
  ⟨rfl, rfl⟩

/-- C8 amended: `getSchemaDetails` fails with the NotFound error (message
`Schema not found:` followed by the requested name) exactly when the
`components.schemas` lookup yields no key or a falsy value; when the key
maps to a truthy value the operation returns the name-schema object — as is
with `resolveRefs` off, resolved when `resolveRefs` is on and resolution
returns normally (the only other possible outcome is the URIError escaping
percent-decoding of a malformed pointer, which is not a NotFound failure). -/
theorem claim8_notfound_amended :
    (∀ (spec : Value) (name : String) (rr : Bool) (md : Nat),
      (schemaLookup spec name = none ∨
        ∃ s, schemaLookup spec name = some s ∧ truthy s = false) →
      getSchemaDetails spec name rr md = .error (.err ("Schema not found: " ++ name)))
    ∧ (∀ (spec : Value) (name : String) (s : Value) (md : Nat),
      schemaLookup spec name = some s → truthy s = true →
      getSchemaDetails spec name false md =
        .ok (.vObj [("name", .vStr name), ("schema", s)]))
    ∧ (∀ (spec : Value) (name : String) (s w : Value) (md : Nat) (vis2 : List String),
      schemaLookup spec name = some s → truthy s = true →
      resolveAllRefs spec md 0 [] s = .ok (w, vis2) →
      getSchemaDetails spec name true md =
        .ok (.vObj [("name", .vStr name), ("schema", w)]))
    ∧ (∀ (spec : Value) (name : String) (rr : Bool) (md : Nat),
      getSchemaDetails spec name rr md = .error (.err ("Schema not found: " ++ name)) →
      schemaLookup spec name = none ∨
        ∃ s, schemaLookup spec name = some s ∧ truthy s = false) := by
  refine ⟨?_, ?_, ?_, ?_⟩
  · intro spec name rr md h
    cases h with
    | inl h => simp [getSchemaDetails, h]
    | inr h =>
      obtain ⟨s, hs, ht⟩ := h
      simp [getSchemaDetails, hs, ht]
  · intro spec name s md hs ht
    simp [getSchemaDetails, hs, ht]
  · intro spec name s w md vis2 hs ht hres
    simp [getSchemaDetails, hs, ht, hres]
  · intro spec name rr md h
    cases hl : schemaLookup spec name with
    | none => exact Or.inl rfl
    | some s =>
      by_cases ht : truthy s
      · exfalso
        unfold getSchemaDetails at h
        rw [hl] at h
        simp only [ht, if_true] at h
        cases rr with
        | false => simp at h
        | true =>
          simp only [if_true] at h
          cases hres : resolveAllRefs spec md 0 [] s with
          | error e =>
            rw [hres] at h
            have he : e = .err ("Schema not found: " ++ name) := by
              simpa using h
            have hu : e = .uriMalformed :=
              resolveAllRefs_error_class spec md 0 [] s e hres
            rw [hu] at he
            exact JsError.noConfusion he
          | ok p =>
            obtain ⟨w, vis2⟩ := p
            rw [hres] at h
            simp at h
      · exact Or.inr ⟨s, rfl, by simpa using ht⟩

/-- Witness for the amended C8 on `nullSchemaDoc`: a missing name fails with
the NotFound message containing the name; the present truthy schema is
returned with and without resolution; the NotFound failure on `Empty`
certifies a falsy lookup. -/
theorem claim8_notfound_amended_witness :
    getSchemaDetails nullSchemaDoc "Missing" true 5 =
      .error (.err "Schema not found: Missing")
    ∧ getSchemaDetails nullSchemaDoc "User" false 5 =
        .ok (.vObj [("name", .vStr "User"), ("schema", .vObj [("type", .vStr "string")])])
    ∧ getSchemaDetails nullSchemaDoc "User" true 5 =
        .ok (.vObj [("name", .vStr "User"), ("schema", .vObj [("type", .vStr "string")])])
    ∧ (schemaLookup nullSchemaDoc "Empty" = none ∨
        ∃ s, schemaLookup nullSchemaDoc "Empty" = some s ∧ truthy s = false) := by
  refine ⟨claim8_notfound_amended.1 nullSchemaDoc "Missing" true 5 (Or.inl rfl),
    claim8_notfound_amended.2.1 nullSchemaDoc "User" _ 5 rfl rfl,
    claim8_notfound_amended.2.2.1 nullSchemaDoc "User" _ _ 5 [] rfl rfl ?_,
    claim8_notfound_amended.2.2.2 nullSchemaDoc "Empty" true 5 rfl⟩
  exact (noRefs_resolve_main (sizeOf (Value.vObj [("type", Value.vStr "string")]) + 1)).1
    nullSchemaDoc 5 0 [] _ (Nat.lt_succ_self _) (by simp [noRefs, noRefsFields])

end OpenapiMcp
